import Mathlib

/-!
Verification of the fixture extraction and reconciliation pipeline of the
Teddy Stadium football-matches scraper (src/scraper.py).

The shallow embedding below translates the pure parsing and reconciliation
logic of the script into Lean:

* Python strings are Lean `String`s; Python `kw in s` (contiguous substring)
  is `strContains`.
* Timezone-aware datetimes (all fixed to `Asia/Jerusalem`) are modelled as
  minutes on the proleptic Gregorian calendar (`toMinutes`); the zone is
  treated as a fixed offset, so comparisons and differences of local civil
  times coincide with comparisons and differences of the absolute times.
  `timedelta.days` is floor division by one day, i.e. `Int.fdiv · 1440`.
* `fetch_beitar_matches` consumes the per-item data BeautifulSoup extracts
  (`BItem`: presence of the teams block plus the three text fields); the
  HTML traversal itself belongs to the external `bs4` collaborator.
* `fetch_hapoel_matches` consumes the flattened non-empty line list, exactly
  as the script builds it from `soup.get_text`.
* Python exceptions escaping a function are `Except.error ()`; the Hapoel
  parser can raise `ValueError` while unpacking `map(int, time_str.split(":"))`,
  so its result type is `Except Unit (List Match)`.
* `re.match`/`re.search` are modelled character by character with the same
  anchoring semantics (`re.match` anchors only at the start; `$` at the end);
  `\d` is modelled as an ASCII digit and `\s` as ASCII whitespace, which is
  what the scraped pages contain.
-/

/-- Value of an ASCII digit character. -/
def dval (c : Char) : Nat := c.toNat - 48

/-- Boolean list-prefix test. -/
def isPrefixB : List Char → List Char → Bool
  | [], _ => true
  | _ :: _, [] => false
  | a :: as, b :: bs => a == b && isPrefixB as bs

/-- Boolean contiguous-sublist test. -/
def isInfixB (needle : List Char) : List Char → Bool
  | [] => isPrefixB needle []
  | c :: rest => isPrefixB needle (c :: rest) || isInfixB needle rest

/-- Python `needle in hay` for strings: contiguous substring containment. -/
def strContains (needle hay : String) : Bool := isInfixB needle.data hay.data

/-- Python `int()` on the digit strings produced by the parsers: all-digit,
non-empty strings convert; anything else raises (`none`). -/
def pyInt (cs : List Char) : Option Nat :=
  if !cs.isEmpty && cs.all Char.isDigit then
    some (cs.foldl (fun acc c => 10 * acc + dval c) 0)
  else none

/-- Python `s.split(":")`: split at every colon, empty parts kept. -/
def splitOnColon : List Char → List (List Char)
  | [] => [[]]
  | c :: rest =>
    if c == ':' then [] :: splitOnColon rest
    else
      match splitOnColon rest with
      | h :: t => (c :: h) :: t
      | [] => [[c]]

/-- Gregorian leap-year test, as in Python's `datetime`. -/
def isLeap (y : Nat) : Bool := y % 4 == 0 && (y % 100 != 0 || y % 400 == 0)

/-- Days in the months strictly before month `m` of a non-leap year. -/
def cumMonthDays (m : Nat) : Nat :=
  [0, 31, 59, 90, 120, 151, 181, 212, 243, 273, 304, 334].getD (m - 1) 0

/-- Proleptic Gregorian day number of a civil date (Python `date.toordinal`,
up to a constant shift; only differences and comparisons matter). -/
def toOrdinal (y m d : Nat) : Nat :=
  365 * (y - 1) + (y - 1) / 4 - (y - 1) / 100 + (y - 1) / 400
    + cumMonthDays m + (if 2 < m && isLeap y then 1 else 0) + (d - 1)

/-- A `datetime(y, m, d, hh, mi, tzinfo=ISRAEL_TZ)` as minutes on the
proleptic Gregorian timeline. -/
def toMinutes (y m d hh mi : Nat) : Int :=
  (toOrdinal y m d : Int) * 1440 + hh * 60 + mi

/-- Keyword `BEITAR_KW` of the script. -/
def BEITAR_KW : String := "בית"

/-- Keyword `HAPOEL_JLM_KW` of the script. -/
def HAPOEL_JLM_KW : String := "הפועל ירושלים"

/-- Constant `DEFAULT_HOUR` of the script. -/
def DEFAULT_HOUR : Nat := 20

/-- Constant `DEFAULT_MINUTE` of the script. -/
def DEFAULT_MINUTE : Nat := 30

/-- The TBD-time coercion shared by both parsers:
`if hour < 10: hour, minute = DEFAULT_HOUR, DEFAULT_MINUTE`. -/
def coerceTBD (hour minute : Nat) : Nat × Nat :=
  if hour < 10 then (DEFAULT_HOUR, DEFAULT_MINUTE) else (hour, minute)

/-- A fixture record, i.e. the dict appended by both parsers. -/
structure Match where
  home_team : String
  away_team : String
  datetime : Int
  venue : String
  source : String
deriving DecidableEq

/-- The data `fetch_beitar_matches` reads from one `game_list_item` element:
whether a `teams_names` block exists, the stripped home/away texts (absent
sub-elements yield `""`), and the stripped `game_info` text. -/
structure BItem where
  teams_present : Bool
  home_name : String
  away_name : String
  info_text : String
deriving DecidableEq

/-- Test `re.match(r"(\d{2}/\d{2}/\d{4})$", line)`: a full `DD/MM/YYYY` line. -/
def isDateLine (s : String) : Bool :=
  match s.data with
  | [d1, d2, s1, m1, m2, s2, y1, y2, y3, y4] =>
    d1.isDigit && d2.isDigit && s1 == '/' && m1.isDigit && m2.isDigit && s2 == '/' &&
      y1.isDigit && y2.isDigit && y3.isDigit && y4.isDigit
  | _ => false

/-- Model of `day, month, year = date_str.split("/")` with `int` conversion, for a
`DD/MM/YYYY` string. Returns `(day, month, year)`. -/
def parseDateFull (s : String) : Nat × Nat × Nat :=
  match s.data with
  | [d1, d2, _, m1, m2, _, y1, y2, y3, y4] =>
    (10 * dval d1 + dval d2, 10 * dval m1 + dval m2,
      1000 * dval y1 + 100 * dval y2 + 10 * dval y3 + dval y4)
  | _ => (0, 0, 0)

/-- Test `re.match(r"\d{2}:\d{2}", time_str)`: anchored at the start only, so this
is a test on the first five characters. -/
def hhmmStart (s : String) : Bool :=
  match s.data with
  | a :: b :: c :: d :: e :: _ =>
    a.isDigit && b.isDigit && c == ':' && d.isDigit && e.isDigit
  | _ => false

/-- The Hapoel parser's kickoff-time handling:
`if time_str and re.match(r"\d{2}:\d{2}", time_str): hour, minute = map(int, time_str.split(":")) else: hour, minute = DEFAULT_HOUR, DEFAULT_MINUTE`.
The unpacking raises (`Except.error`) unless the split yields exactly two
integer literals. -/
def hapoelTimeOfStr (time_str : String) : Except Unit (Nat × Nat) :=
  if !time_str.data.isEmpty && hhmmStart time_str then
    match (splitOnColon time_str.data).map pyInt with
    | [some hour, some minute] => Except.ok (hour, minute)
    | _ => Except.error ()
  else Except.ok (DEFAULT_HOUR, DEFAULT_MINUTE)

/-- Python `\s` on the ASCII range. -/
def isPySpace (c : Char) : Bool :=
  c == ' ' || c == '\t' || c == '\n' || c == '\r' || c == '\x0b' || c == '\x0c'

/-- One anchored attempt of `(\d{2}/\d{2}/\d{2})\s*->\s*(\d{2}:\d{2})` at the
head of `cs`, returning the two captured groups. -/
def matchInfoAt (cs : List Char) : Option (String × String) :=
  match cs with
  | d1 :: d2 :: s1 :: d3 :: d4 :: s2 :: d5 :: d6 :: rest =>
    if d1.isDigit && d2.isDigit && s1 == '/' && d3.isDigit && d4.isDigit && s2 == '/' &&
        d5.isDigit && d6.isDigit then
      match rest.dropWhile isPySpace with
      | '-' :: '>' :: rest2 =>
        match rest2.dropWhile isPySpace with
        | h1 :: h2 :: c1 :: mm1 :: mm2 :: _ =>
          if h1.isDigit && h2.isDigit && c1 == ':' && mm1.isDigit && mm2.isDigit then
            some (String.mk [d1, d2, s1, d3, d4, s2, d5, d6], String.mk [h1, h2, c1, mm1, mm2])
          else none
        | _ => none
      | _ => none
    else none
  | _ => none

/-- Model of `re.search` for the pattern above: first start position that matches. -/
def searchInfo : List Char → Option (String × String)
  | [] => none
  | c :: rest =>
    match matchInfoAt (c :: rest) with
    | some r => some r
    | none => searchInfo rest

/-- Model of `day, month, year = date_part.split("/")` for a `DD/MM/YY` capture.
Returns `(day, month, year)`. -/
def parseDate2 (s : String) : Nat × Nat × Nat :=
  match s.data with
  | [d1, d2, _, m1, m2, _, y1, y2] =>
    (10 * dval d1 + dval d2, 10 * dval m1 + dval m2, 10 * dval y1 + dval y2)
  | _ => (0, 0, 0)

/-- Model of `hour, minute = map(int, time_part.split(":"))` for an `HH:MM` capture. -/
def parseTime2 (s : String) : Nat × Nat :=
  match s.data with
  | [h1, h2, _, m1, m2] => (10 * dval h1 + dval h2, 10 * dval m1 + dval m2)
  | _ => (0, 0)

/-- The Beitar parser's inclusion test:
`is_beitar_home or is_derby` (the candidate is skipped when
`not is_beitar_home and not is_derby`). -/
def beitarInclude (home_name away_name : String) : Bool :=
  let is_beitar_home := strContains BEITAR_KW home_name
  let is_derby := (strContains BEITAR_KW home_name && strContains HAPOEL_JLM_KW away_name)
    || (strContains HAPOEL_JLM_KW home_name && strContains BEITAR_KW away_name)
  is_beitar_home || is_derby

/-- The per-item loop of `fetch_beitar_matches`, over the extracted items and
the `now` reference taken at the start of the function. -/
def fetch_beitar_matches (now : Int) : List BItem → List Match
  | [] => []
  | item :: rest =>
    let tail := fetch_beitar_matches now rest
    if !item.teams_present then tail
    else
      let home_name := item.home_name
      let away_name := item.away_name
      if !beitarInclude home_name away_name then tail
      else
        match searchInfo item.info_text.data with
        | none => tail
        | some (date_part, time_part) =>
          let dmy := parseDate2 date_part
          let hm0 := parseTime2 time_part
          let hm := coerceTBD hm0.1 hm0.2
          let match_dt := toMinutes (2000 + dmy.2.2) dmy.2.1 dmy.1 hm.1 hm.2
          if match_dt < now then tail
          else
            { home_team := home_name, away_team := away_name, datetime := match_dt,
              venue := "Teddy Stadium", source := "beitar" } :: tail

/-- Section marker line of the Hapoel page: upcoming matches. -/
def UPCOMING_MARKER : String := "משחקים קרובים"

/-- Header-row labels skipped after the marker. -/
def HEADER_ROW : List String := ["שעה", "מגרש", "אורחת", "מארחת", "תאריך"]

/-- Lines that stop the scan (next section). -/
def STOP_ROWS : List String := ["משחקים שהסתיימו", "שעה", "תוצאה"]

/-- Footer-like repeated headers that also stop the scan. -/
def FOOTER_ROWS : List String := ["אורחת", "מארחת", "תאריך"]

/-- Tokens that end the backward walk collecting a fixture's fields. -/
def BACK_STOP : List String := ["שעה", "מגרש", "אורחת", "מארחת", "תאריך", "משחקים קרובים"]

/-- Model of `lines.index(x)`, returning `none` in place of raising `ValueError`. -/
def indexOfLine (target : String) : List String → Option Nat
  | [] => none
  | l :: rest => if l == target then some 0 else (indexOfLine target rest).map (· + 1)

/-- Loop `while i < len(lines) and lines[i] in HEADER_ROW: i += 1`, driven by fuel
(initially `lines.length`, enough to reach the end of the list). -/
def skipHeaderRows (lines : List String) : Nat → Nat → Nat
  | 0, i => i
  | fuel + 1, i =>
    if i < lines.length then
      if HEADER_ROW.contains (lines.getD i "") then skipHeaderRows lines fuel (i + 1)
      else i
    else i

/-- The backward walk before a date line: collect up to 4 preceding lines,
stopping at a date line, a header token, or below `start_idx`. Called with
fuel `i` and `j = i - 1`, so fuel runs out exactly when Python's `j` would
pass below zero. -/
def collectPreceding (lines : List String) (start_idx : Nat) :
    Nat → Nat → List String → List String
  | 0, _, preceding => preceding
  | fuel + 1, j, preceding =>
    if start_idx ≤ j ∧ preceding.length < 4 then
      let prev := lines.getD j ""
      if isDateLine prev then preceding
      else if BACK_STOP.contains prev then preceding
      else collectPreceding lines start_idx fuel (j - 1) (prev :: preceding)
    else preceding

/-- Value `preceding[-k] if len(preceding) >= k else ""`. -/
def getNeg (l : List String) (k : Nat) : String :=
  if k ≤ l.length then l.getD (l.length - k) "" else ""

/-- The Hapoel parser's inclusion test:
`(is_hapoel_home and is_teddy) or is_derby`. -/
def hapoelInclude (home_team guest_team venue : String) : Bool :=
  let is_hapoel_home := strContains HAPOEL_JLM_KW home_team
  let is_teddy := strContains "טדי" venue
  let is_derby := (strContains BEITAR_KW home_team && strContains HAPOEL_JLM_KW guest_team)
    || (strContains HAPOEL_JLM_KW home_team && strContains BEITAR_KW guest_team)
  (is_hapoel_home && is_teddy) || is_derby

/-- The main `while i < len(lines)` loop of `fetch_hapoel_matches`, driven by
fuel (initially `lines.length`; the index `i` strictly increases each step, so
the fuel never runs out before the loop guard fails). -/
def hapoelLoop (lines : List String) (start_idx : Nat) (now : Int) :
    Nat → Nat → List Match → Except Unit (List Match)
  | 0, _, acc => Except.ok acc
  | fuel + 1, i, acc =>
    if i < lines.length then
      let line := lines.getD i ""
      if STOP_ROWS.contains line then Except.ok acc
      else if FOOTER_ROWS.contains line then Except.ok acc
      else if isDateLine line then
        let preceding := collectPreceding lines start_idx i (i - 1) []
        let home_team := getNeg preceding 1
        let guest_team := getNeg preceding 2
        let venue := getNeg preceding 3
        let time_str := getNeg preceding 4
        if !hapoelInclude home_team guest_team venue then
          hapoelLoop lines start_idx now fuel (i + 1) acc
        else
          let dmy := parseDateFull line
          match hapoelTimeOfStr time_str with
          | Except.error e => Except.error e
          | Except.ok hm0 =>
            let hm := coerceTBD hm0.1 hm0.2
            let match_dt := toMinutes dmy.2.2 dmy.2.1 dmy.1 hm.1 hm.2
            if match_dt < now then hapoelLoop lines start_idx now fuel (i + 1) acc
            else
              hapoelLoop lines start_idx now fuel (i + 1)
                (acc ++ [{ home_team := home_team, away_team := guest_team,
                               datetime := match_dt, venue := "Teddy Stadium",
                               source := "hapoel" }])
      else hapoelLoop lines start_idx now fuel (i + 1) acc
    else Except.ok acc

/-- Function `fetch_hapoel_matches`, over the flattened non-empty line list and the
`now` reference. `Except.error ()` models an uncaught `ValueError`. -/
def fetch_hapoel_matches (lines : List String) (now : Int) : Except Unit (List Match) :=
  match indexOfLine UPCOMING_MARKER lines with
  | none => Except.ok []
  | some start_idx =>
    hapoelLoop lines start_idx now lines.length (skipHeaderRows lines lines.length (start_idx + 1)) []

/-- Python string `<`: lexicographic comparison by code point, a proper
prefix being smaller. -/
def listStrLt : List Char → List Char → Bool
  | [], [] => false
  | [], _ :: _ => true
  | _ :: _, [] => false
  | a :: as, b :: bs =>
    if a.toNat < b.toNat then true
    else if b.toNat < a.toNat then false
    else listStrLt as bs

/-- Python `a < b` on strings. -/
def pyStrLt (a b : String) : Bool := listStrLt a.data b.data

/-- Key `tuple(sorted([m["home_team"], m["away_team"]]))`: the unordered team-pair
key. Python's stable two-element sort swaps exactly when the second string is
lexicographically smaller. -/
def teamsKey (m : Match) : String × String :=
  if pyStrLt m.away_team m.home_team then (m.away_team, m.home_team)
  else (m.home_team, m.away_team)

/-- Test `teams == existing_teams and abs((m["datetime"] - existing["datetime"]).days) <= 3`;
`timedelta.days` is floor division of the difference by one day. -/
def isDup (m existing : Match) : Bool :=
  decide (teamsKey m = teamsKey existing) &&
    decide (((m.datetime - existing.datetime).fdiv 1440).natAbs ≤ 3)

/-- The home-site tie-break applied at a detected duplicate: replace the
accepted entry with the candidate exactly when the home team's own site
produced the candidate (`unique[j] = m`); otherwise keep the existing entry
(the candidate is dropped). -/
def dedupKeep (existing m : Match) : Match :=
  let home_is_hapoel := strContains HAPOEL_JLM_KW existing.home_team
  if home_is_hapoel && m.source == "hapoel" then m
  else if !home_is_hapoel && m.source == "beitar" then m
  else existing

/-- The inner `for j, existing in enumerate(unique)` scan: find the first
duplicate, apply the home-site tie-break there, and stop (`break`). `none`
means no duplicate was found. -/
def dedupScan (m : Match) : List Match → Option (List Match)
  | [] => none
  | existing :: rest =>
    if isDup m existing then some (dedupKeep existing m :: rest)
    else (dedupScan m rest).map (fun u => existing :: u)

/-- One iteration of the outer loop of `deduplicate_matches`: scan for a
duplicate; if none, append the candidate. -/
def dedupInsert (unique : List Match) (m : Match) : List Match :=
  match dedupScan m unique with
  | some u => u
  | none => unique ++ [m]

/-- The sort key relation of `sorted(..., key=lambda m: m["datetime"])`. -/
def mLe (a b : Match) : Prop := a.datetime ≤ b.datetime

instance : DecidableRel mLe := fun a b => Int.decLe a.datetime b.datetime

instance : IsTotal Match mLe := ⟨fun a b => Int.le_total a.datetime b.datetime⟩

instance : IsTrans Match mLe := ⟨fun _ _ _ h1 h2 => le_trans h1 h2⟩

/-- Function `deduplicate_matches`: sort by kickoff, fold the duplicate scan, sort the
result by kickoff. The stable `List.insertionSort` models Python's stable
`sorted`. -/
def deduplicate_matches (all_matches : List Match) : List Match :=
  let sorted_matches := List.insertionSort mLe all_matches
  let unique := sorted_matches.foldl dedupInsert []
  List.insertionSort mLe unique

/-! Properties of the duplicate scan -/

lemma dedupKeep_cases (existing m : Match) :
    dedupKeep existing m = m ∨ dedupKeep existing m = existing := by
  by_cases h1 : (strContains HAPOEL_JLM_KW existing.home_team && m.source == "hapoel") = true
  · exact Or.inl (by simp [dedupKeep, h1])
  · by_cases h2 : (!strContains HAPOEL_JLM_KW existing.home_team && m.source == "beitar") = true
    · exact Or.inl (by simp [dedupKeep, h1, h2])
    · exact Or.inr (by simp [dedupKeep, h1, h2])

lemma dedupScan_eq_none_iff (m : Match) (u : List Match) :
    dedupScan m u = none ↔ ∀ ex ∈ u, isDup m ex = false := by
  induction u with
  | nil => simp [dedupScan]
  | cons a rest ih =>
    rw [dedupScan]
    by_cases ha : isDup m a
    · simp [ha]
    · rw [if_neg ha, Option.map_eq_none', ih]
      constructor
      · intro hr ex hex
        rcases List.mem_cons.mp hex with rfl | hex'
        · exact Bool.eq_false_iff.mpr ha
        · exact hr ex hex'
      · intro hall ex hex
        exact hall ex (List.mem_cons_of_mem a hex)

lemma dedupScan_eq_some (m : Match) :
    ∀ (u v : List Match), dedupScan m u = some v →
      ∃ pre ex post, u = pre ++ ex :: post ∧ (∀ p ∈ pre, isDup m p = false) ∧
        isDup m ex = true ∧ v = pre ++ dedupKeep ex m :: post := by
  intro u
  induction u with
  | nil => intro v h; simp [dedupScan] at h
  | cons a rest ih =>
    intro v h
    by_cases ha : isDup m a
    · rw [dedupScan, if_pos ha] at h
      exact ⟨[], a, rest, rfl, by simp, ha, by simpa using h.symm⟩
    · rw [dedupScan, if_neg ha, Option.map_eq_some'] at h
      obtain ⟨w, hw, rfl⟩ := h
      obtain ⟨pre, ex, post, rfl, hpre, hex, rfl⟩ := ih w hw
      refine ⟨a :: pre, ex, post, rfl, ?_, hex, rfl⟩
      intro p hp
      rcases List.mem_cons.mp hp with rfl | hp'
      · exact Bool.eq_false_iff.mpr ha
      · exact hpre p hp'

lemma mem_dedupInsert {u : List Match} {m x : Match} (hx : x ∈ dedupInsert u m) :
    x ∈ u ∨ x = m := by
  unfold dedupInsert at hx
  cases hscan : dedupScan m u with
  | none =>
    rw [hscan] at hx
    rcases List.mem_append.mp hx with h | h
    · exact Or.inl h
    · simp at h; exact Or.inr h
  | some v =>
    rw [hscan] at hx
    obtain ⟨pre, ex, post, rfl, _, _, rfl⟩ := dedupScan_eq_some m _ v hscan
    rcases List.mem_append.mp hx with h | h
    · exact Or.inl (List.mem_append.mpr (Or.inl h))
    · rcases List.mem_cons.mp h with rfl | h'
      · rcases dedupKeep_cases ex m with hk | hk
        · exact Or.inr hk
        · exact Or.inl (by rw [hk]; simp)
      · exact Or.inl (by simp [h'])

lemma mem_foldl_dedupInsert :
    ∀ (l u : List Match) (x : Match), x ∈ l.foldl dedupInsert u → x ∈ u ∨ x ∈ l := by
  intro l
  induction l with
  | nil => intro u x h; exact Or.inl h
  | cons m rest ih =>
    intro u x h
    rw [List.foldl_cons] at h
    rcases ih (dedupInsert u m) x h with h1 | h1
    · rcases mem_dedupInsert h1 with h2 | rfl
      · exact Or.inl h2
      · exact Or.inr (by simp)
    · exact Or.inr (by simp [h1])

/-! Arithmetic of the 3-day window -/

lemma not_dup_far {m ex : Match} (hkey : teamsKey m = teamsKey ex)
    (hle : ex.datetime ≤ m.datetime) (hnd : isDup m ex = false) :
    ex.datetime + 5760 ≤ m.datetime := by
  have hw : ¬ (((m.datetime - ex.datetime).fdiv 1440).natAbs ≤ 3) := by
    intro hc
    have : isDup m ex = true := by simp [isDup, hkey, hc]
    rw [this] at hnd
    exact Bool.true_eq_false.mp hnd
  rw [Int.fdiv_eq_ediv _ (by norm_num)] at hw
  omega

lemma dup_near {m ex : Match} (hd : isDup m ex = true) :
    teamsKey m = teamsKey ex ∧ m.datetime < ex.datetime + 5760 := by
  have hd' := hd
  simp only [isDup, Bool.and_eq_true, decide_eq_true_eq] at hd'
  refine ⟨hd'.1, ?_⟩
  have hw := hd'.2
  rw [Int.fdiv_eq_ediv _ (by norm_num)] at hw
  omega

/-! The separation invariant maintained by the reconciler

Two entries of the accumulating `unique` list with the same team-pair key are
always at least four whole days (5760 minutes) apart: a candidate within the
window replaces or is dropped, and a candidate outside the window has
`timedelta.days` at least 4. -/

/-- Separation in accumulation order: a later same-key entry is at least
5760 minutes after an earlier one. -/
def Rkey (a b : Match) : Prop :=
  teamsKey a = teamsKey b → a.datetime + 5760 ≤ b.datetime

/-- Symmetric form of the separation invariant. -/
def Rsym (a b : Match) : Prop :=
  teamsKey a = teamsKey b → 5760 ≤ (a.datetime - b.datetime).natAbs

lemma Rsym_symm : ∀ {x y : Match}, Rsym x y → Rsym y x := by
  intro x y h hkey
  have := h hkey.symm
  omega

lemma pairwise_dedupInsert {u : List Match} {m : Match}
    (hb : ∀ x ∈ u, x.datetime ≤ m.datetime) (hp : List.Pairwise Rkey u) :
    List.Pairwise Rkey (dedupInsert u m) := by
  unfold dedupInsert
  cases hscan : dedupScan m u with
  | none =>
    have hall := (dedupScan_eq_none_iff m u).mp hscan
    rw [List.pairwise_append]
    refine ⟨hp, List.pairwise_singleton _ _, ?_⟩
    intro a ha b hb'
    rcases List.mem_singleton.mp hb' with rfl
    intro hkey
    exact not_dup_far hkey.symm (hb a ha) (hall a ha)
  | some v =>
    obtain ⟨pre, ex, post, rfl, hpre, hex, rfl⟩ := dedupScan_eq_some m _ v hscan
    rcases dedupKeep_cases ex m with hk | hk
    · rw [hk]
      rw [List.pairwise_append] at hp ⊢
      obtain ⟨hpre_pw, hexpost, hcross⟩ := hp
      rw [List.pairwise_cons] at hexpost ⊢
      have hexmem : ex ∈ pre ++ ex :: post := by simp
      have hkey_mex : teamsKey m = teamsKey ex := (dup_near hex).1
      have hnear : m.datetime < ex.datetime + 5760 := (dup_near hex).2
      refine ⟨hpre_pw, ⟨?_, hexpost.2⟩, ?_⟩
      · intro b hbmem hkey
        exfalso
        have hexb : ex.datetime + 5760 ≤ b.datetime :=
          hexpost.1 b hbmem (hkey_mex.symm.trans hkey)
        have hble : b.datetime ≤ m.datetime := hb b (by simp [hbmem])
        omega
      · intro a hamem b hbmem
        rcases List.mem_cons.mp hbmem with rfl | hbmem'
        · intro hkey
          exact not_dup_far hkey.symm (hb a (by simp [hamem])) (hpre a hamem)
        · exact hcross a hamem b (List.mem_cons_of_mem _ hbmem')
    · rw [hk]
      exact hp

lemma pairwise_foldl_dedupInsert :
    ∀ (l u : List Match), List.Sorted mLe l →
      (∀ x ∈ u, ∀ y ∈ l, x.datetime ≤ y.datetime) →
      List.Pairwise Rkey u →
      List.Pairwise Rkey (l.foldl dedupInsert u)
  | [], _, _, _, hp => hp
  | m :: rest, u, hs, hbb, hp => by
    rw [List.foldl_cons]
    have hbm : ∀ x ∈ u, x.datetime ≤ m.datetime := fun x hx => hbb x hx m (by simp)
    apply pairwise_foldl_dedupInsert rest _ hs.of_cons
    · intro x hx y hy
      rcases mem_dedupInsert hx with h | rfl
      · exact hbb x h y (by simp [hy])
      · exact List.rel_of_sorted_cons hs y hy
    · exact pairwise_dedupInsert hbm hp

/-- Unfolding equation for `deduplicate_matches`. -/
lemma deduplicate_matches_def (l : List Match) :
    deduplicate_matches l =
      List.insertionSort mLe ((List.insertionSort mLe l).foldl dedupInsert []) := rfl

/-- Every two same-key entries of the reconciled output are at least 5760
minutes (4 floor-days) apart. -/
lemma dedup_pairwise_strong (l : List Match) :
    List.Pairwise Rsym (deduplicate_matches l) := by
  rw [deduplicate_matches_def]
  have hs : List.Sorted mLe (List.insertionSort mLe l) := List.sorted_insertionSort mLe l
  have h1 : List.Pairwise Rkey ((List.insertionSort mLe l).foldl dedupInsert []) :=
    pairwise_foldl_dedupInsert _ [] hs (by simp) (by simp)
  have h2 : List.Pairwise Rsym ((List.insertionSort mLe l).foldl dedupInsert []) := by
    refine h1.imp ?_
    intro a b hab hkey
    have := hab hkey
    omega
  exact ((List.perm_insertionSort mLe _).pairwise_iff Rsym_symm).mpr h2

/-- The reconciled output is sorted by kickoff. -/
lemma dedup_sorted (l : List Match) : List.Sorted mLe (deduplicate_matches l) := by
  rw [deduplicate_matches_def]
  exact List.sorted_insertionSort mLe _

/-- Every record of the reconciled output is one of the input records. -/
lemma dedup_subset (l : List Match) : ∀ x ∈ deduplicate_matches l, x ∈ l := by
  intro x hx
  rw [deduplicate_matches_def] at hx
  rw [List.mem_insertionSort] at hx
  rcases mem_foldl_dedupInsert _ [] x hx with h | h
  · simp at h
  · exact (List.mem_insertionSort mLe).mp h

/-- When no candidate duplicates an accumulated or earlier entry, the fold
appends everything in order. -/
lemma foldl_dedupInsert_append :
    ∀ (l u : List Match), (∀ y ∈ l, ∀ x ∈ u, isDup y x = false) →
      List.Pairwise (fun a b => isDup b a = false) l →
      l.foldl dedupInsert u = u ++ l
  | [], u, _, _ => by simp
  | m :: rest, u, hlu, hp => by
    rw [List.foldl_cons]
    have h1 : dedupInsert u m = u ++ [m] := by
      unfold dedupInsert
      rw [(dedupScan_eq_none_iff m u).mpr (hlu m (by simp))]
    have h2 : ∀ y ∈ rest, ∀ x ∈ u ++ [m], isDup y x = false := by
      intro y hy x hx
      rcases List.mem_append.mp hx with h | h
      · exact hlu y (by simp [hy]) x h
      · rcases List.mem_singleton.mp h with rfl
        exact (List.pairwise_cons.mp hp).1 y hy
    rw [h1, foldl_dedupInsert_append rest (u ++ [m]) h2 (List.pairwise_cons.mp hp).2]
    simp

/-! Claims about the reconciler -/

/-- Claim C2: in the list returned by `deduplicate_matches` no two distinct
records share the same unordered team-pair key with kickoffs at most 3 days
(4320 minutes) apart; this holds for every pair of the output, also after
tie-break replacements. -/
theorem dedup_no_same_pair_within_window (l : List Match) :
    List.Pairwise
      (fun a b => teamsKey a = teamsKey b → 4320 < (a.datetime - b.datetime).natAbs)
      (deduplicate_matches l) := by
  refine (dedup_pairwise_strong l).imp ?_
  intro a b h hkey
  have := h hkey
  omega

/-- Claim C9: the list returned by `deduplicate_matches` is sorted in
ascending order of the kickoff timestamp. -/
theorem dedup_output_sorted_by_kickoff (l : List Match) :
    List.Sorted mLe (deduplicate_matches l) :=
  dedup_sorted l

/-- Claim C4: `deduplicate_matches` is idempotent. -/
theorem dedup_idempotent (l : List Match) :
    deduplicate_matches (deduplicate_matches l) = deduplicate_matches l := by
  have hs := dedup_sorted l
  have hp := dedup_pairwise_strong l
  have hpl : List.Pairwise mLe (deduplicate_matches l) := hs
  have hnd : List.Pairwise (fun a b => isDup b a = false) (deduplicate_matches l) := by
    refine (hpl.and hp).imp ?_
    rintro a b ⟨hle, hsym⟩
    by_cases hkey : teamsKey b = teamsKey a
    · have h5 := hsym hkey.symm
      have hle' : a.datetime ≤ b.datetime := hle
      have hw : ¬ ((b.datetime - a.datetime).fdiv 1440).natAbs ≤ 3 := by
        rw [Int.fdiv_eq_ediv _ (by norm_num)]
        omega
      simp [isDup, hw]
    · simp [isDup, hkey]
  rw [deduplicate_matches_def (deduplicate_matches l), hs.insertionSort_eq,
    foldl_dedupInsert_append _ [] (by simp) hnd, List.nil_append, hs.insertionSort_eq]

/-- Claim C10 (amended): `deduplicate_matches` merges records only at exact
string equality of the sorted name pair: every output record is an unmodified
input record, and when all input records have pairwise distinct keys, every
input record appears in the output (no matter how close the kickoffs are). -/
theorem dedup_key_is_exact_string_equality (l : List Match) :
    (∀ x ∈ deduplicate_matches l, x ∈ l) ∧
    (List.Pairwise (fun a b => teamsKey a ≠ teamsKey b) l →
      ∀ x ∈ l, x ∈ deduplicate_matches l) := by
  refine ⟨dedup_subset l, ?_⟩
  intro hdist x hx
  have hsorted_dist : List.Pairwise (fun a b => teamsKey a ≠ teamsKey b)
      (List.insertionSort mLe l) :=
    ((List.perm_insertionSort mLe l).pairwise_iff (fun h hk => h hk.symm)).mpr hdist
  have hnd : List.Pairwise (fun a b => isDup b a = false) (List.insertionSort mLe l) := by
    refine hsorted_dist.imp ?_
    intro a b h
    have hk : ¬ (teamsKey b = teamsKey a) := fun hk => h hk.symm
    simp [isDup, hk]
  rw [deduplicate_matches_def, foldl_dedupInsert_append _ [] (by simp) hnd, List.nil_append,
    List.mem_insertionSort, List.mem_insertionSort]
  exact hx

/-- Claim C10, counterexample to the claim as stated: in the input below the
second and third records have different sorted name pairs, yet the second is
absent from the output (it was merged into the first, which shares its key). -/
theorem dedup_drops_record_despite_distinct_keys :
    teamsKey (⟨"a", "b", 100, "v", "other"⟩ : Match) ≠ teamsKey (⟨"c", "d", 0, "v", "s"⟩ : Match) ∧
    (⟨"a", "b", 100, "v", "other"⟩ : Match) ∈
      ([⟨"a", "b", 0, "v", "s"⟩, ⟨"a", "b", 100, "v", "other"⟩, ⟨"c", "d", 0, "v", "s"⟩] : List Match) ∧
    (⟨"c", "d", 0, "v", "s"⟩ : Match) ∈
      ([⟨"a", "b", 0, "v", "s"⟩, ⟨"a", "b", 100, "v", "other"⟩, ⟨"c", "d", 0, "v", "s"⟩] : List Match) ∧
    (⟨"a", "b", 100, "v", "other"⟩ : Match) ∉
      deduplicate_matches
        [⟨"a", "b", 0, "v", "s"⟩, ⟨"a", "b", 100, "v", "other"⟩, ⟨"c", "d", 0, "v", "s"⟩] := by
  decide

lemma dedupScan_append (m ex : Match) (post : List Match) :
    ∀ pre : List Match, (∀ p ∈ pre, isDup m p = false) → isDup m ex = true →
      dedupScan m (pre ++ ex :: post) = some (pre ++ dedupKeep ex m :: post)
  | [], _, hex => by simp [dedupScan, hex]
  | a :: pre, hpre, hex => by
    have ha : isDup m a = false := hpre a (by simp)
    rw [List.cons_append, dedupScan, if_neg (by simp [ha]),
      dedupScan_append m ex post pre (fun p hp => hpre p (by simp [hp])) hex]
    rfl

/-- Claim C3: at the first detected duplicate (`existing` entry `ex`, scanned
past `pre` with no earlier duplicate), the kept record follows the home-site
preference: if `ex`'s home team contains the Hapoel-Jerusalem keyword, a
candidate from source "hapoel" replaces it in place; if it does not, a
candidate from source "beitar" replaces it; otherwise the candidate is
dropped and the accepted list is unchanged. In every case exactly one entry
survives: the length of the accepted list does not change. -/
theorem dedup_tiebreak_home_site (unique pre post : List Match) (ex m : Match)
    (hu : unique = pre ++ ex :: post)
    (hpre : ∀ p ∈ pre, isDup m p = false)
    (hex : isDup m ex = true) :
    (strContains HAPOEL_JLM_KW ex.home_team = true → m.source = "hapoel" →
      dedupInsert unique m = pre ++ m :: post) ∧
    (strContains HAPOEL_JLM_KW ex.home_team = false → m.source = "beitar" →
      dedupInsert unique m = pre ++ m :: post) ∧
    (strContains HAPOEL_JLM_KW ex.home_team = true → m.source ≠ "hapoel" →
      dedupInsert unique m = unique) ∧
    (strContains HAPOEL_JLM_KW ex.home_team = false → m.source ≠ "beitar" →
      dedupInsert unique m = unique) ∧
    (dedupInsert unique m).length = unique.length := by
  subst hu
  have hins : dedupInsert (pre ++ ex :: post) m = pre ++ dedupKeep ex m :: post := by
    unfold dedupInsert
    rw [dedupScan_append m ex post pre hpre hex]
  refine ⟨?_, ?_, ?_, ?_, ?_⟩
  · intro h1 h2; rw [hins]; simp [dedupKeep, h1, h2]
  · intro h1 h2; rw [hins]; simp [dedupKeep, h1, h2]
  · intro h1 h2; rw [hins]; simp [dedupKeep, h1, h2]
  · intro h1 h2; rw [hins]; simp [dedupKeep, h1, h2]
  · rw [hins]; simp

/-- Claim C3, witness: a Hapoel-home duplicate reported by both sites, where
the candidate from source "hapoel" replaces the accepted Beitar-sourced
record. -/
theorem dedup_tiebreak_home_site_witness :
    dedupInsert [⟨"הפועל ירושלים", "אחר", 0, "Teddy Stadium", "beitar"⟩]
        ⟨"אחר", "הפועל ירושלים", 1000, "Teddy Stadium", "hapoel"⟩ =
      [⟨"אחר", "הפועל ירושלים", 1000, "Teddy Stadium", "hapoel"⟩] :=
  (dedup_tiebreak_home_site _ [] [] _ _ rfl (by simp) (by decide)).1 (by decide) rfl

/-! Claims about the parsers -/

lemma beitar_nonpast (now : Int) :
    ∀ (items : List BItem), ∀ m ∈ fetch_beitar_matches now items, now ≤ m.datetime := by
  intro items
  induction items with
  | nil => intro m h; simp [fetch_beitar_matches] at h
  | cons item rest ih =>
    intro m h
    simp only [fetch_beitar_matches] at h
    split at h
    · exact ih m h
    · split at h
      · exact ih m h
      · split at h
        · exact ih m h
        · split at h
          · exact ih m h
          · next hnl =>
            rcases List.mem_cons.mp h with rfl | h'
            · exact le_of_not_lt hnl
            · exact ih m h'

lemma hapoelLoop_nonpast (lines : List String) (start_idx : Nat) (now : Int) :
    ∀ (fuel i : Nat) (acc out : List Match),
      (∀ x ∈ acc, now ≤ x.datetime) →
      hapoelLoop lines start_idx now fuel i acc = Except.ok out →
      ∀ m ∈ out, now ≤ m.datetime := by
  intro fuel
  induction fuel with
  | zero =>
    intro i acc out hacc heq
    rw [hapoelLoop] at heq
    rcases heq
    exact hacc
  | succ fuel ih =>
    intro i acc out hacc heq
    simp only [hapoelLoop] at heq
    split at heq
    · split at heq
      · rcases heq; exact hacc
      · split at heq
        · rcases heq; exact hacc
        · split at heq
          · split at heq
            · exact ih (i + 1) acc out hacc heq
            · split at heq
              · rcases heq
              · split at heq
                · exact ih (i + 1) acc out hacc heq
                · next hnl =>
                  refine ih (i + 1) _ out ?_ heq
                  intro x hx
                  rcases List.mem_append.mp hx with hx' | hx'
                  · exact hacc x hx'
                  · rcases List.mem_singleton.mp hx' with rfl
                    exact le_of_not_lt hnl
          · exact ih (i + 1) acc out hacc heq
    · rcases heq; exact hacc

lemma hapoel_nonpast (lines : List String) (now : Int) (out : List Match)
    (heq : fetch_hapoel_matches lines now = Except.ok out) :
    ∀ m ∈ out, now ≤ m.datetime := by
  unfold fetch_hapoel_matches at heq
  cases hidx : indexOfLine UPCOMING_MARKER lines with
  | none =>
    rw [hidx] at heq
    rcases heq
    intro m h
    simp at h
  | some s =>
    rw [hidx] at heq
    exact hapoelLoop_nonpast lines s now lines.length _ [] out (by simp) heq

/-- Claim C1 (amended): every fixture record returned by either parser has a
kickoff at least the `now` reference taken at extraction time: only candidates
with a kickoff strictly before `now` are dropped, so the kickoff is not
necessarily strictly in the future — a candidate whose kickoff equals `now`
exactly is kept. -/
theorem parsers_keep_only_nonpast_kickoffs :
    (∀ (now : Int) (items : List BItem), ∀ m ∈ fetch_beitar_matches now items,
      now ≤ m.datetime) ∧
    (∀ (lines : List String) (now : Int) (out : List Match),
      fetch_hapoel_matches lines now = Except.ok out → ∀ m ∈ out, now ≤ m.datetime) :=
  ⟨beitar_nonpast, fun lines now out heq => hapoel_nonpast lines now out heq⟩

/-- Claim C1, witness for the amended theorem: a concrete Beitar item whose
constructed kickoff is not below `now` is emitted with that kickoff. -/
theorem parsers_keep_only_nonpast_kickoffs_witness :
    toMinutes 2030 5 10 20 30 ≤
      (Match.mk "בית\"ר ירושלים" "אחר" (toMinutes 2030 5 10 20 30) "Teddy Stadium"
        "beitar").datetime :=
  parsers_keep_only_nonpast_kickoffs.1 (toMinutes 2030 5 10 20 30)
    [⟨true, "בית\"ר ירושלים", "אחר", "10/05/30 -> 20:30"⟩] _ (by decide)

/-- Claim C1, counterexample to the claim as stated: a Beitar candidate whose
constructed kickoff equals `now` exactly is emitted, not dropped, so the
output kickoff is not strictly after `now`. -/
theorem beitar_keeps_kickoff_equal_to_now :
    fetch_beitar_matches (toMinutes 2030 5 10 20 30)
        [⟨true, "בית\"ר ירושלים", "אחר", "10/05/30 -> 20:30"⟩] =
      [⟨"בית\"ר ירושלים", "אחר", toMinutes 2030 5 10 20 30, "Teddy Stadium", "beitar"⟩] ∧
    ¬ (toMinutes 2030 5 10 20 30 < toMinutes 2030 5 10 20 30) :=
  ⟨by decide, lt_irrefl _⟩

/-- Claim C5: in both parsers, a parsed kickoff hour strictly below 10 is
normalized (with its minute) to the configured default 20:30, and an hour of
10 or above is preserved unchanged; concretely, a Beitar item announcing
`01:59` yields the default kickoff and a Hapoel row announcing `19:00` keeps
it. -/
theorem tbd_hour_normalization :
    (∀ hour minute, hour < 10 → coerceTBD hour minute = (DEFAULT_HOUR, DEFAULT_MINUTE)) ∧
    (∀ hour minute, 10 ≤ hour → coerceTBD hour minute = (hour, minute)) ∧
    fetch_beitar_matches 0 [⟨true, "בית\"ר ירושלים", "אחר", "05/04/30 -> 01:59"⟩] =
      [⟨"בית\"ר ירושלים", "אחר", toMinutes 2030 4 5 20 30, "Teddy Stadium", "beitar"⟩] ∧
    fetch_hapoel_matches ["משחקים קרובים", "19:00", "טדי", "אורח", "הפועל ירושלים", "01/05/2030"] 0 =
      Except.ok [⟨"הפועל ירושלים", "אורח", toMinutes 2030 5 1 19 0, "Teddy Stadium", "hapoel"⟩] := by
  refine ⟨?_, ?_, rfl, rfl⟩
  · intro hour minute h
    simp [coerceTBD, h]
  · intro hour minute h
    simp [coerceTBD, Nat.not_lt.mpr h]

/-- Claim C5, witness: hour 1 is coerced to the default, hour 19 is kept. -/
theorem tbd_hour_normalization_witness :
    coerceTBD 1 59 = (DEFAULT_HOUR, DEFAULT_MINUTE) ∧ coerceTBD 19 0 = (19, 0) :=
  ⟨tbd_hour_normalization.1 1 59 (by decide), tbd_hour_normalization.2.1 19 0 (by decide)⟩

/-- Claim C6: both parsers include a candidate as a derby whenever one team
name contains the tracked-club keyword and the other contains the rival-club
keyword, in either home/away assignment; for the Hapoel parser this holds for
every venue string, even one not containing the venue keyword. -/
theorem derby_always_included (home away venue : String)
    (h : (strContains BEITAR_KW home = true ∧ strContains HAPOEL_JLM_KW away = true) ∨
         (strContains HAPOEL_JLM_KW home = true ∧ strContains BEITAR_KW away = true)) :
    beitarInclude home away = true ∧ hapoelInclude home away venue = true := by
  rcases h with ⟨h1, h2⟩ | ⟨h1, h2⟩ <;>
    simp [beitarInclude, hapoelInclude, h1, h2]

/-- Claim C6, witness: home contains the rival keyword, away contains the
tracked keyword, and the venue field is empty; the candidate still passes
both inclusion tests. -/
theorem derby_always_included_witness :
    beitarInclude "הפועל ירושלים" "בית\"ר ירושלים" = true ∧
    hapoelInclude "הפועל ירושלים" "בית\"ר ירושלים" "" = true :=
  derby_always_included "הפועל ירושלים" "בית\"ר ירושלים" ""
    (Or.inr ⟨by decide, by decide⟩)

lemma digit_ne_colon {c : Char} (h : c.isDigit = true) : (c == ':') = false := by
  by_cases hc : c = ':'
  · subst hc
    exact absurd h (by decide)
  · simp [hc]

/-- Claim C7 (amended): in the Hapoel parser's time handling, a captured slot
that is exactly a well-formed `HH:MM` string is parsed into that hour and
minute, and a slot that is empty or fails the five-character `HH:MM` head
test gets the configured default; but a slot that passes the head test and
does not split on `:` into exactly two integer literals (such as a time with
seconds) raises an exception instead of returning. -/
theorem hapoel_time_parse_or_default :
    (∀ a b c d : Char, a.isDigit = true → b.isDigit = true → c.isDigit = true →
      d.isDigit = true →
      hapoelTimeOfStr (String.mk [a, b, ':', c, d]) =
        Except.ok (10 * dval a + dval b, 10 * dval c + dval d)) ∧
    (∀ s : String, s.data.isEmpty = true ∨ hhmmStart s = false →
      hapoelTimeOfStr s = Except.ok (DEFAULT_HOUR, DEFAULT_MINUTE)) ∧
    hapoelTimeOfStr "20:30:00" = Except.error () := by
  refine ⟨?_, ?_, rfl⟩
  · intro a b c d ha hb hc hd
    have hna := digit_ne_colon ha
    have hnb := digit_ne_colon hb
    have hnc := digit_ne_colon hc
    have hnd := digit_ne_colon hd
    rw [hapoelTimeOfStr]
    rw [if_pos (by simp [hhmmStart, ha, hb, hc, hd])]
    have hsplit : splitOnColon (String.mk [a, b, ':', c, d]).data = [[a, b], [c, d]] := by
      simp [splitOnColon, hna, hnb, hnc, hnd]
    rw [hsplit]
    have hpa : pyInt [a, b] = some (10 * dval a + dval b) := by
      simp [pyInt, ha, hb]
    have hpc : pyInt [c, d] = some (10 * dval c + dval d) := by
      simp [pyInt, hc, hd]
    simp [hpa, hpc]
  · intro s hs
    rw [hapoelTimeOfStr]
    rcases hs with hs | hs
    · rw [if_neg (by simp [hs])]
    · rw [if_neg (by simp [hs])]

/-- Claim C7, witness: `19:00` parses to (19, 0) and a non-time slot falls
back to the default. -/
theorem hapoel_time_parse_or_default_witness :
    hapoelTimeOfStr (String.mk ['1', '9', ':', '0', '0']) =
      Except.ok (10 * dval '1' + dval '9', 10 * dval '0' + dval '0') ∧
    hapoelTimeOfStr "xx" = Except.ok (DEFAULT_HOUR, DEFAULT_MINUTE) :=
  ⟨hapoel_time_parse_or_default.1 '1' '9' '0' '0' (by decide) (by decide) (by decide) (by decide),
   hapoel_time_parse_or_default.2.1 "xx" (Or.inr (by decide))⟩

/-- Claim C7, counterexample to the claim as stated: on a fixture whose
captured time slot is `20:30:00` (not a well-formed `HH:MM`, so the claim
promises the default and a normal return) the parser raises an uncaught
exception. -/
theorem hapoel_parser_raises_on_time_with_seconds :
    fetch_hapoel_matches
        ["משחקים קרובים", "20:30:00", "טדי", "אורח", "הפועל ירושלים", "01/05/2030"] 0 =
      Except.error () := rfl

lemma indexOfLine_eq_none {target : String} :
    ∀ {lines : List String}, target ∉ lines → indexOfLine target lines = none := by
  intro lines
  induction lines with
  | nil => intro _; rfl
  | cons l rest ih =>
    intro h
    rw [indexOfLine]
    have hl : (l == target) = false := by
      simp only [beq_eq_false_iff_ne, ne_eq]
      intro he
      exact h (he ▸ List.mem_cons_self l rest)
    rw [if_neg (by simp [hl]), ih (fun hm => h (List.mem_cons_of_mem l hm))]
    rfl

/-- Claim C8: when no line equals the upcoming-fixtures marker, the Hapoel
parser returns the empty list (no exception), and the reconciled output
built from the Beitar list plus this result consists solely of Beitar's
records. -/
theorem hapoel_missing_marker_recoverable (lines : List String) (now : Int)
    (h : UPCOMING_MARKER ∉ lines) :
    fetch_hapoel_matches lines now = Except.ok [] ∧
    ∀ (bs hl : List Match), fetch_hapoel_matches lines now = Except.ok hl →
      ∀ x ∈ deduplicate_matches (bs ++ hl), x ∈ bs := by
  have h0 : fetch_hapoel_matches lines now = Except.ok [] := by
    unfold fetch_hapoel_matches
    rw [indexOfLine_eq_none h]
  refine ⟨h0, ?_⟩
  intro bs hl heq x hx
  rw [h0] at heq
  rcases heq
  have hmem := dedup_subset (bs ++ []) x hx
  simpa using hmem

/-- Claim C8, witness: a line list without the marker yields the empty list. -/
theorem hapoel_missing_marker_recoverable_witness :
    fetch_hapoel_matches ["אבג"] 0 = Except.ok [] :=
  (hapoel_missing_marker_recoverable ["אבג"] 0 (by decide)).1

/-- Claim C2, witness at a concrete input. -/
theorem dedup_no_same_pair_within_window_witness :
    List.Pairwise
      (fun a b => teamsKey a = teamsKey b → 4320 < (a.datetime - b.datetime).natAbs)
      (deduplicate_matches
        [⟨"a", "b", 0, "v", "s"⟩, ⟨"a", "b", 100, "v", "s"⟩, ⟨"c", "d", 0, "v", "s"⟩]) :=
  dedup_no_same_pair_within_window
    [⟨"a", "b", 0, "v", "s"⟩, ⟨"a", "b", 100, "v", "s"⟩, ⟨"c", "d", 0, "v", "s"⟩]

/-- Claim C4, witness at a concrete input. -/
theorem dedup_idempotent_witness :
    deduplicate_matches (deduplicate_matches
        [⟨"a", "b", 0, "v", "s"⟩, ⟨"a", "b", 100, "v", "s"⟩, ⟨"c", "d", 0, "v", "s"⟩]) =
      deduplicate_matches
        [⟨"a", "b", 0, "v", "s"⟩, ⟨"a", "b", 100, "v", "s"⟩, ⟨"c", "d", 0, "v", "s"⟩] :=
  dedup_idempotent [⟨"a", "b", 0, "v", "s"⟩, ⟨"a", "b", 100, "v", "s"⟩, ⟨"c", "d", 0, "v", "s"⟩]

/-- Claim C9, witness at a concrete input. -/
theorem dedup_output_sorted_by_kickoff_witness :
    List.Sorted mLe (deduplicate_matches
      [⟨"a", "b", 500, "v", "s"⟩, ⟨"c", "d", 0, "v", "s"⟩]) :=
  dedup_output_sorted_by_kickoff [⟨"a", "b", 500, "v", "s"⟩, ⟨"c", "d", 0, "v", "s"⟩]

/-- Claim C10, witness for the amended theorem: with pairwise-distinct keys
every input record appears in the output. -/
theorem dedup_key_is_exact_string_equality_witness :
    (⟨"a", "b", 0, "v", "s"⟩ : Match) ∈
      deduplicate_matches [⟨"a", "b", 0, "v", "s"⟩, ⟨"c", "d", 50, "v", "s"⟩] :=
  (dedup_key_is_exact_string_equality
      [⟨"a", "b", 0, "v", "s"⟩, ⟨"c", "d", 50, "v", "s"⟩]).2
    (by decide) _ (by decide)
